import Mathlib

/-!
Shallow embedding of `src/formatter.go` (package `formatter`), a compact
text formatter for the logrus logging pipeline, together with proofs about
it.  Go strings are Lean `String`s (a Go string is a byte sequence holding
UTF-8 text; every text handled here is compared and sliced at rune
boundaries, so the code-point view is faithful).  Go-side effects of
`Format` (the write to `entry.Message`, the write into `entry.Buffer`, the
one-time initialisation of the formatter's cached fields) are made explicit
by returning the post-call entry and formatter state.  The order in which
`for k := range data` enumerates a Go map is left unspecified by the Go
language, so it enters the model as an explicit parameter.
-/

/-! ## Go string primitives used by the source -/

/-- Byte-wise lexicographic comparison of rune lists; under UTF-8 the
byte order and the code-point order coincide, so this models Go's `<=`
on strings, the order used by `sort.Strings`. -/
def strLeAux : List Char → List Char → Bool
  | [], _ => true
  | _ :: _, [] => false
  | a :: as, b :: bs =>
    if a < b then true
    else if b < a then false
    else strLeAux as bs

/-- Go string `<=`. -/
def strLe (a b : String) : Bool := strLeAux a.data b.data

/-- The order `strLe` as a relation, for use with `List.insertionSort`. -/
def strLeR (a b : String) : Prop := strLe a b = true

instance : DecidableRel strLeR := fun a b => instDecidableEqBool (strLe a b) true

/-- Go `strings.ToUpper` on one rune, restricted to ASCII (the only texts
it is applied to in the source are the ASCII level names). -/
def goToUpperChar (c : Char) : Char :=
  if 'a' ≤ c ∧ c ≤ 'z' then Char.ofNat (c.toNat - 32) else c

/-- Go `strings.ToUpper` (ASCII fragment, see `goToUpperChar`). -/
def goToUpper (s : String) : String := ⟨s.data.map goToUpperChar⟩

/-- Go `strings.TrimSuffix(s, "\n")`: drop one trailing newline when present. -/
def trimNewlineSuffix (s : String) : String :=
  if s.data.getLast? = some '\n' then ⟨s.data.dropLast⟩ else s

/-- Go `fmt` left-justified width padding `%-Ns`: pad with spaces on the
right to a minimum of `n` runes (`fmt` counts width in runes). -/
def padRight (s : String) (n : Nat) : String :=
  s ++ ⟨List.replicate (n - s.length) ' '⟩

/-- Hexadecimal digit, lowercase, as emitted by `strconv.Quote`
(its `lowerhex` table). -/
def hexDigitChar (n : Nat) : Char :=
  ("0123456789abcdef" : String).data.getD n '0'

/-- One rune as `strconv.Quote` renders it inside the quotes: quote and
backslash get a backslash escape, printable ASCII passes through, the
named control escapes follow, other ASCII controls become `\xHH`;
non-ASCII runes are modelled as printable and pass through. -/
def goQuoteChar (c : Char) : List Char :=
  if c = '"' ∨ c = '\\' then ['\\', c]
  else if 0x20 ≤ c.val ∧ c.val ≤ 0x7e then [c]
  else if c = '\x07' then ['\\', 'a']
  else if c = '\x08' then ['\\', 'b']
  else if c = '\x0c' then ['\\', 'f']
  else if c = '\n' then ['\\', 'n']
  else if c = '\r' then ['\\', 'r']
  else if c = '\t' then ['\\', 't']
  else if c = '\x0b' then ['\\', 'v']
  else if c.val < 0x80 then ['\\', 'x', hexDigitChar (c.toNat / 16), hexDigitChar (c.toNat % 16)]
  else [c]

/-- Go `fmt.Sprintf("%q", s)` = `strconv.Quote(s)`: wrap in double quotes,
escaping the interior per `goQuoteChar`. -/
def goQuote (s : String) : String :=
  ⟨'"' :: (s.data.map goQuoteChar).flatten ++ ['"']⟩

/-! ## The logrus collaborator types (external dependency `sirupsen/logrus`) -/

/-- The fixed logrus level enumeration. -/
inductive Level where
  | panic | fatal | error | warning | info | debug | trace
deriving DecidableEq

/-- logrus `Level.String()`: the canonical lowercase name. -/
def Level.str : Level → String
  | .panic => "panic"
  | .fatal => "fatal"
  | .error => "error"
  | .warning => "warning"
  | .info => "info"
  | .debug => "debug"
  | .trace => "trace"

/-- logrus `AllLevels`, in declaration order. -/
def AllLevels : List Level :=
  [.panic, .fatal, .error, .warning, .info, .debug, .trace]

/-- A field value (dynamically typed in Go).  A Go `string` asserts as
itself; other values reach the output through `fmt.Sprint`, whose result
for a non-string value is carried by the `display` component of the
non-string constructors. -/
inductive FieldValue where
  | str (s : String)
  | int (n : Int)
  | bool (b : Bool)
  | other (display : String)
deriving DecidableEq

/-- The text `appendValue` works on: `value.(string)` when the assertion
succeeds, else `fmt.Sprint(value)`. -/
def FieldValue.text : FieldValue → String
  | .str s => s
  | .int n => toString n
  | .bool b => if b then "true" else "false"
  | .other d => d

/-- The slice of `logrus.Logger` the formatter reads: `Logger.Out` enters
only through `isatty`, abstracted to the capability bit
"is the configured output stream a terminal". -/
structure LoggerRef where
  outIsTerminal : Bool
deriving DecidableEq

/-- The slice of `runtime.Frame` the formatter reads: `Function` and `Line`. -/
structure GoFrame where
  function : String
  line : Nat
deriving DecidableEq

/-- A `logrus.Entry` as the formatter consumes it.  `time pat` stands for
`entry.Time.Format(pat)` (timestamp rendering is an external collaborator,
modelled as the map from layout to rendered text carried by the record);
`data` is the `logrus.Fields` map, listed in insertion order with unique
keys; `buffer` is the optional reusable output buffer with the bytes it
already holds. -/
structure Entry where
  time : String → String
  level : Level
  message : String
  data : List (String × FieldValue)
  caller : Option GoFrame
  logger : Option LoggerRef
  buffer : Option String

/-! ## The formatter -/

/-- Constant block of the source. -/
def defaultTimestampFormat : String := "2006-01-02 15:04:05 MST"

def faint : Int := 2

def red : Int := 31

def yellow : Int := 33

def blue : Int := 36

def gray : Int := 37

/-- The `TextFormatter` configuration fields.  `SortingFunc` reorders the
key list in place in Go, modelled as a list transformer;
`CallerPrettyfier` maps a frame to a (function text, file text) pair. -/
structure TextFormatter where
  TimestampFormat : String := ""
  DisableTimestamp : Bool := false
  ForceColors : Bool := false
  DisableColors : Bool := false
  ForceQuote : Bool := false
  DisableQuote : Bool := false
  TruncateLevelText : Bool := false
  PadLevelText : Bool := false
  DisableSorting : Bool := false
  SortingFunc : Option (List String → List String) := none
  CallerPrettyfier : Option (GoFrame → String × String) := none

/-- The formatter's mutable cache: `isTerminal` and `levelTextMaxLength`
(zero-valued before first use), plus the done bit of `terminalInitOnce`. -/
structure FmtState where
  initDone : Bool := false
  isTerminal : Bool := false
  levelTextMaxLength : Nat := 0
deriving DecidableEq

/-- The body of `init` (lines 62-72): probe the terminal only when the
entry carries a logger, then fold the rune counts of all level names into
`levelTextMaxLength`. -/
def initState (st : FmtState) (entry : Entry) : FmtState :=
  { initDone := true
    isTerminal :=
      match entry.logger with
      | some lg => lg.outIsTerminal
      | none => st.isTerminal
    levelTextMaxLength :=
      AllLevels.foldl
        (fun m lv => if lv.str.length > m then lv.str.length else m)
        st.levelTextMaxLength }

/-- `isColored` (lines 74-78); `goos` is `runtime.GOOS`. -/
def isColored (f : TextFormatter) (st : FmtState) (goos : String) : Bool :=
  (f.ForceColors || (st.isTerminal && !(goos == "windows"))) && !f.DisableColors

/-- `colorPrint` (lines 80-85). -/
def colorPrint (text : String) (color : Int) : String :=
  if color > 0 then "\x1b[" ++ toString color ++ "m" ++ text ++ "\x1b[0m"
  else text

/-- The rune test inside `needsQuoting`'s loop: the characters that never
force quoting. -/
def safeChar (ch : Char) : Bool :=
  (('a' ≤ ch && ch ≤ 'z') ||
   ('A' ≤ ch && ch ≤ 'Z') ||
   ('0' ≤ ch && ch ≤ '9') ||
   ch == '-' || ch == '.' || ch == '_' || ch == '/' || ch == '@' || ch == '^' || ch == '+')

/-- `needsQuoting` (lines 87-103). -/
def needsQuoting (f : TextFormatter) (text : String) : Bool :=
  if f.ForceQuote then true
  else if f.DisableQuote then false
  else text.data.any (fun ch => !(safeChar ch))

/-- `appendValue` (lines 105-116), returning the appended text. -/
def appendValue (f : TextFormatter) (value : FieldValue) : String :=
  let stringVal := value.text
  if !(needsQuoting f stringVal) then stringVal else goQuote stringVal

/-- Go map read `data[k]`: the stored value, or the zero `interface`
value (whose `fmt.Sprint` shows `<nil>`) when the key is absent (possible
only if a custom `SortingFunc` invents keys).  Map keys are unique, so the
first hit is the binding. -/
def lookupField (data : List (String × FieldValue)) (k : String) : FieldValue :=
  match data.find? (fun p => p.1 == k) with
  | some p => p.2
  | none => FieldValue.other "<nil>"

/-- Append of a list of strings, used for the fields segment. -/
def concatAll : List String → String
  | [] => ""
  | s :: rest => s ++ concatAll rest

/-- The field loop (lines 216-220): one ` key=value` chunk per key, key
colour-wrapped, value through `appendValue`. -/
def fieldsSection (f : TextFormatter) (levelColor : Int)
    (data : List (String × FieldValue)) (keys : List String) : String :=
  concatAll (keys.map fun k =>
    " " ++ colorPrint k levelColor ++ "=" ++ appendValue f (lookupField data k))

/-- Key resolution (lines 124-135): the keys of the copied map in
map-iteration order, sorted when sorting is on — `sort.Strings` (any
correct sort; rendered as insertion sort over Go string order) when no
custom function is set, else the custom function's output. -/
def resolveKeys (f : TextFormatter) (iterKeys : List String) : List String :=
  if !f.DisableSorting then
    match f.SortingFunc with
    | none => List.insertionSort strLeR iterKeys
    | some g => g iterKeys
  else iterKeys

/-- Timestamp layout resolution (lines 146-149). -/
def effTimestampFormat (f : TextFormatter) : String :=
  if f.TimestampFormat = "" then defaultTimestampFormat else f.TimestampFormat

/-- The level-to-colour switch (lines 157-166). -/
def levelToColor : Level → Int
  | .debug | .trace => gray
  | .warning => yellow
  | .error | .fatal | .panic => red
  | _ => blue

/-- Level text rendering (lines 172-180).  Go slices `levelText[0:4]` by
bytes and panics when the byte length is under 4; level names are ASCII so
bytes and runes agree, and the panic is modelled as `none`. -/
def renderedLevelText (f : TextFormatter) (maxLen : Nat) (lv : Level) : Option String :=
  let lt0 := goToUpper lv.str
  let step1 : Option String :=
    if f.TruncateLevelText && !f.PadLevelText then
      if 4 ≤ lt0.length then some ⟨lt0.data.take 4⟩ else none
    else some lt0
  step1.map fun lt => if f.PadLevelText then padRight lt maxLen else lt

/-- Caller rendering (lines 184-204): empty without caller info; otherwise
resolve the (function text, file text) pair — default
`Function:Line` with empty file text, or the custom prettyfier's output —
combine, and wrap in ` (...)` (the wrap at line 203 is unconditional). -/
def callerText (f : TextFormatter) (entry : Entry) : String :=
  match entry.caller with
  | none => ""
  | some fr =>
    let p : String × String :=
      match f.CallerPrettyfier with
      | some cp => cp fr
      | none => (fr.function ++ ":" ++ toString fr.line, "")
    let c :=
      if p.2 = "" then p.1
      else if p.1 = "" then p.2
      else p.2 ++ " " ++ p.1
    " (" ++ c ++ ")"

/-- Lines 172-222 of `Format`: line assembly from the separator, level
colour and (already colour-wrapped) timestamp chosen at lines 153-170.
Returns the formatted line and the entry as left after the
`entry.Message` write at line 182; `none` models the truncation panic. -/
def assemble (f : TextFormatter) (maxLen : Nat) (separator : String)
    (levelColor : Int) (timestamp : String) (data : List (String × FieldValue))
    (entry : Entry) (keys : List String) : Option (String × Entry) :=
  (renderedLevelText f maxLen entry.level).map fun levelText =>
    let message := trimNewlineSuffix entry.message
    let caller := callerText f entry
    let colorSection := colorPrint (levelText ++ caller) levelColor
    let head :=
      if f.DisableTimestamp then
        colorSection ++ separator ++ padRight message 44 ++ " "
      else
        timestamp ++ separator ++ colorSection ++ separator ++ padRight message 44 ++ " "
    (head ++ fieldsSection f levelColor data keys ++ "\n",
     { entry with message := message })

/-- `Format` (lines 118-224).  Effects are explicit: the result is the
byte sequence returned (`b.Bytes()`, so including what the reused buffer
already held), the entry after the call (message trimmed in place, buffer
filled when one was provided), and the cache state after the one-time
initialisation.  `goos` is `runtime.GOOS`; `iterKeys` is the order in
which `for k := range data` enumerates the copied map's keys — unspecified
by the Go language, hence a parameter, always a permutation of the key
set in a real run.  `none` models the `levelText[0:4]` panic. -/
def Format (f : TextFormatter) (goos : String) (st : FmtState)
    (iterKeys : List String) (entry : Entry) : Option (String × Entry × FmtState) :=
  let data := entry.data
  let keys := resolveKeys f iterKeys
  let pre :=
    match entry.buffer with
    | some b => b
    | none => ""
  let st1 := if st.initDone then st else initState st entry
  let timestampRaw := entry.time (effTimestampFormat f)
  let colored := isColored f st1 goos
  let levelColor : Int := if colored then levelToColor entry.level else -1
  let timestamp := if colored then colorPrint timestampRaw faint else timestampRaw
  let separator := if colored then " " else " :: "
  (assemble f st1.levelTextMaxLength separator levelColor timestamp data entry keys).map
    fun p =>
      (pre ++ p.1, { p.2 with buffer := entry.buffer.map fun _ => pre ++ p.1 }, st1)

/-! ## ANSI escape sequences: presence and stripping -/

/-- Scanner that removes ANSI colour sequences: on ESC it skips every
character up to and including the closing `m`.  The flag says whether the
scan is inside an escape sequence. -/
def stripAnsiChars : Bool → List Char → List Char
  | _, [] => []
  | false, c :: rest =>
    if c = '\x1b' then stripAnsiChars true rest else c :: stripAnsiChars false rest
  | true, c :: rest =>
    if c = 'm' then stripAnsiChars false rest else stripAnsiChars true rest

/-- Strip every ANSI escape sequence from a string. -/
def stripAnsi (s : String) : String := ⟨stripAnsiChars false s.data⟩

/-- Whether a string holds the ESC byte (the start of every ANSI escape
sequence the formatter can emit). -/
def hasEsc (s : String) : Bool := decide ('\x1b' ∈ s.data)

/-- A string free of the ESC byte. -/
def noEsc (s : String) : Prop := hasEsc s = false

instance (s : String) : Decidable (noEsc s) := instDecidableEqBool (hasEsc s) false

/-- Continuation form of ANSI-stripping: whatever follows, the stripper
turns the first string's characters into the second's and goes on. -/
def StripsTo (a b : String) : Prop :=
  ∀ t : List Char, stripAnsiChars false (a.data ++ t) = b.data ++ stripAnsiChars false t

/-! ## Basic lemmas about the string primitives -/

theorem string_ext {s t : String} (h : s.data = t.data) : s = t := by
  cases s; cases t; exact congrArg String.mk h

theorem noEsc_iff {s : String} : noEsc s ↔ '\x1b' ∉ s.data := by
  simp [noEsc, hasEsc]

theorem hasEsc_append (a b : String) : hasEsc (a ++ b) = (hasEsc a || hasEsc b) := by
  simp [hasEsc, String.data_append]

theorem noEsc_append {a b : String} (ha : noEsc a) (hb : noEsc b) : noEsc (a ++ b) := by
  simp [noEsc, hasEsc_append]
  exact ⟨ha, hb⟩

theorem noEsc_padRight {s : String} (n : Nat) (h : noEsc s) : noEsc (padRight s n) := by
  rw [noEsc_iff] at h ⊢
  rw [padRight, String.data_append]
  intro hc
  rcases List.mem_append.1 hc with hc | hc
  · exact h hc
  · exact absurd (List.eq_of_mem_replicate hc) (by decide)

theorem noEsc_trimNewlineSuffix {s : String} (h : noEsc s) : noEsc (trimNewlineSuffix s) := by
  rw [noEsc_iff] at h ⊢
  unfold trimNewlineSuffix
  split
  · intro hc
    exact h ((List.dropLast_sublist s.data).mem hc)
  · exact h

theorem getD_mem_or (l : List Char) (n : Nat) (d : Char) :
    l.getD n d = d ∨ l.getD n d ∈ l := by
  rcases Nat.lt_or_ge n l.length with h | h
  · right
    rw [List.getD_eq_getElem l d h]
    exact List.getElem_mem h
  · left
    exact List.getD_eq_default l d h

theorem hexDigitChar_ne_esc (n : Nat) : hexDigitChar n ≠ '\x1b' := by
  intro heq
  unfold hexDigitChar at heq
  rcases getD_mem_or ("0123456789abcdef" : String).data n '0' with h | h <;>
    rw [heq] at h
  · exact absurd h (by decide)
  · exact absurd h (by decide)

theorem goQuoteChar_noEsc (c : Char) : '\x1b' ∉ goQuoteChar c := by
  unfold goQuoteChar
  by_cases h1 : c = '"' ∨ c = '\\'
  · rw [if_pos h1]
    rcases h1 with h | h <;> subst h <;> decide
  rw [if_neg h1]
  by_cases h2 : 0x20 ≤ c.val ∧ c.val ≤ 0x7e
  · rw [if_pos h2]
    simp only [List.mem_singleton]
    intro he
    rw [← he] at h2
    exact absurd h2.1 (by decide)
  rw [if_neg h2]
  by_cases h3 : c = '\x07'
  · rw [if_pos h3]; decide
  rw [if_neg h3]
  by_cases h4 : c = '\x08'
  · rw [if_pos h4]; decide
  rw [if_neg h4]
  by_cases h5 : c = '\x0c'
  · rw [if_pos h5]; decide
  rw [if_neg h5]
  by_cases h6 : c = '\n'
  · rw [if_pos h6]; decide
  rw [if_neg h6]
  by_cases h7 : c = '\r'
  · rw [if_pos h7]; decide
  rw [if_neg h7]
  by_cases h8 : c = '\t'
  · rw [if_pos h8]; decide
  rw [if_neg h8]
  by_cases h9 : c = '\x0b'
  · rw [if_pos h9]; decide
  rw [if_neg h9]
  by_cases h10 : c.val < 0x80
  · rw [if_pos h10]
    simp only [List.mem_cons, List.not_mem_nil, or_false]
    push_neg
    exact ⟨by decide, by decide, (hexDigitChar_ne_esc _).symm, (hexDigitChar_ne_esc _).symm⟩
  rw [if_neg h10]
  simp only [List.mem_singleton]
  intro he
  rw [← he] at h10
  exact h10 (by decide)

theorem goQuote_noEsc (s : String) : noEsc (goQuote s) := by
  rw [noEsc_iff]
  intro hmem
  rcases List.mem_cons.1 hmem with h | h
  · exact absurd h (by decide)
  · rcases List.mem_append.1 h with h | h
    · rcases List.mem_flatten.1 h with ⟨l, hl, hesc⟩
      rcases List.mem_map.1 hl with ⟨c, _, rfl⟩
      exact goQuoteChar_noEsc c hesc
    · exact absurd h (by decide)

theorem noEsc_appendValue (f : TextFormatter) (v : FieldValue)
    (h : noEsc v.text) : noEsc (appendValue f v) := by
  cases hq : needsQuoting f v.text
  · simpa [appendValue, hq] using h
  · simpa [appendValue, hq] using goQuote_noEsc v.text

/-! ## Lemmas about the ANSI stripper -/

theorem stripFalse_esc (l : List Char) :
    stripAnsiChars false ('\x1b' :: l) = stripAnsiChars true l := by
  simp [stripAnsiChars]

theorem stripFalse_cons {c : Char} (l : List Char) (hc : c ≠ '\x1b') :
    stripAnsiChars false (c :: l) = c :: stripAnsiChars false l := by
  simp [stripAnsiChars, hc]

theorem stripTrue_m (l : List Char) :
    stripAnsiChars true ('m' :: l) = stripAnsiChars false l := by
  simp [stripAnsiChars]

theorem stripTrue_cons {c : Char} (l : List Char) (hc : c ≠ 'm') :
    stripAnsiChars true (c :: l) = stripAnsiChars true l := by
  simp [stripAnsiChars, hc]

theorem stripAnsiChars_skip : ∀ (code t : List Char), 'm' ∉ code →
    stripAnsiChars true (code ++ 'm' :: t) = stripAnsiChars false t
  | [], t, _ => by
    rw [List.nil_append, stripTrue_m]
  | c :: code, t, h => by
    have hc : c ≠ 'm' := fun he => h (he ▸ List.mem_cons_self c code)
    have ht : 'm' ∉ code := fun hm => h (List.mem_cons_of_mem c hm)
    rw [List.cons_append, stripTrue_cons _ hc]
    exact stripAnsiChars_skip code t ht

theorem stripAnsiChars_copy : ∀ (s t : List Char), '\x1b' ∉ s →
    stripAnsiChars false (s ++ t) = s ++ stripAnsiChars false t
  | [], _, _ => rfl
  | c :: s, t, h => by
    have hc : c ≠ '\x1b' := fun he => h (he ▸ List.mem_cons_self c s)
    have ht : '\x1b' ∉ s := fun hm => h (List.mem_cons_of_mem c hm)
    rw [List.cons_append, stripFalse_cons _ hc, stripAnsiChars_copy s t ht, List.cons_append]

theorem strip_escBlock (code s rest : List Char) (hm : 'm' ∉ code) (hs : '\x1b' ∉ s) :
    stripAnsiChars false
      ('\x1b' :: '[' :: (code ++ ('m' :: (s ++ ('\x1b' :: '[' :: '0' :: 'm' :: rest)))))
      = s ++ stripAnsiChars false rest := by
  have h2 : 'm' ∉ ('[' :: code) := by
    intro h
    rcases List.mem_cons.1 h with h | h
    · exact absurd h (by decide)
    · exact hm h
  rw [show ('\x1b' :: '[' :: (code ++ ('m' :: (s ++ ('\x1b' :: '[' :: '0' :: 'm' :: rest)))))
        = '\x1b' :: (('[' :: code) ++ ('m' :: (s ++ ('\x1b' :: '[' :: '0' :: 'm' :: rest))))
      from rfl]
  rw [stripFalse_esc, stripAnsiChars_skip _ _ h2, stripAnsiChars_copy _ _ hs]
  congr 1

theorem strip_colorPrint (s : String) (c : Int) (t : List Char)
    (hpos : c > 0) (hm : 'm' ∉ (toString c).data) (hs : '\x1b' ∉ s.data) :
    stripAnsiChars false ((colorPrint s c).data ++ t) = s.data ++ stripAnsiChars false t := by
  have hdata : (colorPrint s c).data ++ t
      = '\x1b' :: '[' :: ((toString c).data ++ ('m' :: (s.data ++ ('\x1b' :: '[' :: '0' :: 'm' :: t)))) := by
    rw [colorPrint, if_pos hpos]
    simp [String.data_append]
  rw [hdata, strip_escBlock _ _ _ hm hs]

theorem strip_plainStr (s : String) (t : List Char) (hs : noEsc s) :
    stripAnsiChars false (s.data ++ t) = s.data ++ stripAnsiChars false t :=
  stripAnsiChars_copy _ _ (noEsc_iff.1 hs)

/-! ## Order facts about the Go string comparison -/

theorem strLeAux_total : ∀ as bs, strLeAux as bs = true ∨ strLeAux bs as = true
  | [], _ => Or.inl rfl
  | _ :: _, [] => Or.inr rfl
  | a :: as, b :: bs => by
    rcases lt_trichotomy a b with h | h | h
    · left
      simp [strLeAux, h]
    · subst h
      rcases strLeAux_total as bs with ih | ih
      · left
        simp [strLeAux, lt_irrefl, ih]
      · right
        simp [strLeAux, lt_irrefl, ih]
    · right
      simp [strLeAux, h]

theorem strLeAux_trans : ∀ as bs cs, strLeAux as bs = true → strLeAux bs cs = true →
    strLeAux as cs = true
  | [], _, _, _, _ => rfl
  | _ :: _, [], _, h1, _ => by simp [strLeAux] at h1
  | _ :: _, _ :: _, [], _, h2 => by simp [strLeAux] at h2
  | a :: as, b :: bs, c :: cs, h1, h2 => by
    rcases lt_trichotomy a b with hab | hab | hab
    · rcases lt_trichotomy b c with hbc | hbc | hbc
      · simp [strLeAux, lt_trans hab hbc]
      · subst hbc
        simp [strLeAux, hab]
      · simp [strLeAux, hbc, lt_asymm hbc] at h2
    · subst hab
      rcases lt_trichotomy a c with hac | hac | hac
      · simp [strLeAux, hac]
      · subst hac
        simp only [strLeAux, lt_irrefl, if_false] at h1 h2 ⊢
        exact strLeAux_trans as bs cs h1 h2
      · simp [strLeAux, hac, lt_asymm hac] at h2
    · simp [strLeAux, hab, lt_asymm hab] at h1

theorem strLeAux_antisymm : ∀ as bs, strLeAux as bs = true → strLeAux bs as = true → as = bs
  | [], [], _, _ => rfl
  | [], _ :: _, _, h2 => by simp [strLeAux] at h2
  | _ :: _, [], h1, _ => by simp [strLeAux] at h1
  | a :: as, b :: bs, h1, h2 => by
    rcases lt_trichotomy a b with hab | hab | hab
    · simp [strLeAux, hab, lt_asymm hab] at h2
    · subst hab
      simp only [strLeAux, lt_irrefl, if_false] at h1 h2
      rw [strLeAux_antisymm as bs h1 h2]
    · simp [strLeAux, hab, lt_asymm hab] at h1

theorem strLeR_total : ∀ a b : String, strLeR a b ∨ strLeR b a :=
  fun a b => strLeAux_total a.data b.data

theorem strLeR_trans : ∀ a b c : String, strLeR a b → strLeR b c → strLeR a c :=
  fun a b c => strLeAux_trans a.data b.data c.data

theorem strLeR_antisymm : ∀ a b : String, strLeR a b → strLeR b a → a = b :=
  fun a b h1 h2 => string_ext (strLeAux_antisymm a.data b.data h1 h2)

/-! ## Helper lemmas about the formatter's pieces -/

theorem needsQuoting_eq (f : TextFormatter) (s : String) :
    needsQuoting f s
      = (f.ForceQuote || (!f.DisableQuote && s.data.any fun c => !(safeChar c))) := by
  unfold needsQuoting
  cases f.ForceQuote <;> cases f.DisableQuote <;> simp

theorem goQuoteChar_length (c : Char) : 1 ≤ (goQuoteChar c).length := by
  unfold goQuoteChar
  repeat' split
  all_goals exact List.length_pos.mpr (List.cons_ne_nil _ _)

theorem goQuote_flatten_length : ∀ l : List Char,
    l.length ≤ ((l.map goQuoteChar).flatten).length
  | [] => Nat.le_refl 0
  | c :: l => by
    simp only [List.map_cons, List.flatten_cons, List.length_append, List.length_cons]
    have h1 := goQuoteChar_length c
    have h2 := goQuote_flatten_length l
    omega

theorem goQuote_longer (s : String) : s.length + 2 ≤ (goQuote s).length := by
  have h := goQuote_flatten_length s.data
  show s.data.length + 2 ≤ ('"' :: (s.data.map goQuoteChar).flatten ++ ['"']).length
  simp only [List.length_cons, List.length_append, List.length_singleton]
  omega

theorem renderedLevelText_isSome (f : TextFormatter) (maxLen : Nat) (lv : Level) :
    (renderedLevelText f maxLen lv).isSome = true := by
  have h4 : 4 ≤ (goToUpper lv.str).length := by cases lv <;> decide
  unfold renderedLevelText
  cases hfl : (f.TruncateLevelText && !f.PadLevelText)
  · simp [hfl]
  · simp [hfl, h4]

theorem format_isSome (f : TextFormatter) (goos : String) (st : FmtState)
    (iterKeys : List String) (entry : Entry) :
    (Format f goos st iterKeys entry).isSome = true := by
  unfold Format assemble
  simp [Option.isSome_map, renderedLevelText_isSome]

theorem initState_maxLen (st : FmtState) (entry : Entry) (h : st.levelTextMaxLength = 0) :
    (initState st entry).levelTextMaxLength = 7 := by
  simp only [initState]
  rw [h]
  decide

/-! ## Claim theorems -/

/-- C3: a field value is rendered from its text (a Go string passes
through unchanged, anything else through the default stringification) and
is quote-wrapped with internal escaping exactly when `forceQuote` is set,
or when `disableQuote` is unset and the text holds a character outside
the safe set; the quoted form is never equal to the bare text (it is at
least two characters longer), so with `disableQuote` set and `forceQuote`
unset the text is never quoted. -/
theorem appendValue_quoting (f : TextFormatter) (v : FieldValue) (s : String) :
    (appendValue f v =
      if f.ForceQuote || (!f.DisableQuote && v.text.data.any fun c => !(safeChar c))
      then goQuote v.text else v.text) ∧
    (FieldValue.str s).text = s ∧
    v.text.length + 2 ≤ (goQuote v.text).length := by
  refine ⟨?_, rfl, goQuote_longer v.text⟩
  rw [← needsQuoting_eq]
  cases h : needsQuoting f v.text
  · simp [appendValue, h]
  · simp [appendValue, h]

/-- C9: `Format` is total — for every record over the fixed level
enumeration and every configuration it returns a result (no panic, no
error outcome); in particular the uppercased name of every level has at
least 4 characters, so the `truncateLevelText` slice is always in range. -/
theorem format_total (f : TextFormatter) (goos : String) (st : FmtState)
    (iterKeys : List String) (entry : Entry) :
    (Format f goos st iterKeys entry).isSome = true ∧
    4 ≤ (goToUpper entry.level.str).length :=
  ⟨format_isSome f goos st iterKeys entry, by cases entry.level <;> decide⟩

theorem padRight_length (s : String) (n : Nat) (h : s.length ≤ n) :
    (padRight s n).length = n := by
  show (s ++ (⟨List.replicate (n - s.length) ' '⟩ : String)).length = n
  rw [String.length_append]
  show s.length + (List.replicate (n - s.length) ' ').length = n
  rw [List.length_replicate]
  omega

theorem format_post (f : TextFormatter) (goos : String) (st : FmtState)
    (iterKeys : List String) (entry : Entry) (out : String) (e' : Entry) (st' : FmtState)
    (h : Format f goos st iterKeys entry = some (out, e', st')) :
    st' = (if st.initDone then st else initState st entry) ∧
    e' = { entry with
            message := trimNewlineSuffix entry.message
            buffer := entry.buffer.map fun _ => out } := by
  simp only [Format, assemble] at h
  rcases Option.map_eq_some'.1 h with ⟨p, hp, heq⟩
  rcases Option.map_eq_some'.1 hp with ⟨lt, hlt, hg⟩
  subst hg
  simp only [Prod.mk.injEq] at heq
  obtain ⟨h1, h2, h3⟩ := heq
  subst h1
  subst h2
  subst h3
  exact ⟨rfl, rfl⟩

/-- C7: for every level of the fixed enumeration, the rendered level text
is the uppercased canonical name; with truncation alone it is exactly its
first 4 characters; with padding it is the name right-padded with spaces
to exactly `levelTextMaxLength` (= 7, the width of "warning") characters;
when both flags are set, padding wins and no truncation occurs. -/
theorem levelText_rendering (f : TextFormatter) (lv : Level) (st : FmtState) (entry : Entry)
    (h0 : st.levelTextMaxLength = 0) :
    (initState st entry).levelTextMaxLength = 7 ∧
    (f.TruncateLevelText = false → f.PadLevelText = false →
      renderedLevelText f (initState st entry).levelTextMaxLength lv
        = some (goToUpper lv.str)) ∧
    (f.TruncateLevelText = true → f.PadLevelText = false →
      renderedLevelText f (initState st entry).levelTextMaxLength lv
          = some ⟨(goToUpper lv.str).data.take 4⟩ ∧
        (⟨(goToUpper lv.str).data.take 4⟩ : String).length = 4) ∧
    (f.PadLevelText = true →
      renderedLevelText f (initState st entry).levelTextMaxLength lv
          = some (padRight (goToUpper lv.str) 7) ∧
        (padRight (goToUpper lv.str) 7).length = 7) ∧
    (f.PadLevelText = true →
      renderedLevelText f (initState st entry).levelTextMaxLength lv
        = renderedLevelText { f with TruncateLevelText := false }
            (initState st entry).levelTextMaxLength lv) := by
  have hm := initState_maxLen st entry h0
  refine ⟨hm, ?_, ?_, ?_, ?_⟩
  · intro hT hP
    simp [renderedLevelText, hT, hP]
  · intro hT hP
    have h4 : 4 ≤ (goToUpper lv.str).length := by cases lv <;> decide
    refine ⟨by simp [renderedLevelText, hT, hP, h4], ?_⟩
    show ((goToUpper lv.str).data.take 4).length = 4
    rw [List.length_take]
    have h4' : 4 ≤ (goToUpper lv.str).data.length := h4
    omega
  · intro hP
    have hle : (goToUpper lv.str).length ≤ 7 := by cases lv <;> decide
    refine ⟨?_, padRight_length _ _ hle⟩
    rw [hm]
    simp [renderedLevelText, hP]
  · intro hP
    simp [renderedLevelText, hP]

theorem levelText_rendering_witness :
    ({} : FmtState).levelTextMaxLength = 0 ∧
    (initState {}
        { time := fun _ => "TS", level := .warning, message := "", data := [],
          caller := none, logger := none, buffer := none }).levelTextMaxLength = 7 :=
  ⟨rfl,
    (levelText_rendering { TruncateLevelText := true } .warning {}
      { time := fun _ => "TS", level := .warning, message := "", data := [],
        caller := none, logger := none, buffer := none } rfl).1⟩

/-- C8 counterexample: with caller info present and a custom caller
formatter returning two empty texts, the combined text is empty yet the
wrap at line 203 is unconditional, so the line still gains a ` ()`
annotation — an empty combination does not leave the line unchanged. -/
theorem caller_empty_wrap_cex :
    callerText { CallerPrettyfier := some fun _ => ("", "") }
        { time := fun _ => "TS", level := .info, message := "", data := [],
          caller := some { function := "f", line := 1 }, logger := none, buffer := none }
      = " ()" ∧
    (Format { CallerPrettyfier := some fun _ => ("", "") } "linux" {} []
        { time := fun _ => "TS", level := .info, message := "", data := [],
          caller := some { function := "f", line := 1 }, logger := none,
          buffer := none }).map (fun r => r.1)
      = some ("TS :: INFO () :: " ++ (⟨List.replicate 44 ' '⟩ : String) ++ " \n") ∧
    (" ()" : String) ≠ "" := by
  refine ⟨rfl, by decide, by decide⟩

/-- C8 amended: for a record carrying caller info, the annotation is
always ` (` ++ combined ++ `)` — even when the combination is empty —
where combined is the custom formatter's (functionText, fileText) pair
merged as functionText if fileText is empty, fileText if functionText is
empty, else fileText ++ " " ++ functionText; without a custom formatter it
is the default `function:line` text with an empty fileText. -/
theorem caller_text_amended (f : TextFormatter) (entry : Entry) (fr : GoFrame)
    (hc : entry.caller = some fr) :
    (f.CallerPrettyfier = none →
      callerText f entry = " (" ++ fr.function ++ ":" ++ toString fr.line ++ ")") ∧
    (∀ cp fn fl, f.CallerPrettyfier = some cp → cp fr = (fn, fl) →
      callerText f entry
        = " (" ++ (if fl = "" then fn
                   else if fn = "" then fl
                   else fl ++ " " ++ fn) ++ ")") := by
  constructor
  · intro hcp
    simp [callerText, hc, hcp, String.append_assoc]
  · intro cp fn fl hcp hpair
    simp [callerText, hc, hcp, hpair]

theorem caller_text_amended_witness :
    ({ time := fun _ => "TS", level := .info, message := "", data := [],
       caller := some { function := "main.go", line := 3 }, logger := none,
       buffer := none } : Entry).caller = some { function := "main.go", line := 3 } ∧
    callerText {}
        { time := fun _ => "TS", level := .info, message := "", data := [],
          caller := some { function := "main.go", line := 3 }, logger := none,
          buffer := none }
      = " (" ++ "main.go" ++ ":" ++ toString 3 ++ ")" :=
  ⟨rfl,
    (caller_text_amended {}
      { time := fun _ => "TS", level := .info, message := "", data := [],
        caller := some { function := "main.go", line := 3 }, logger := none,
        buffer := none }
      { function := "main.go", line := 3 } rfl).1 rfl⟩

/-- C2 counterexample: `Format` does mutate the caller's record — line
182 overwrites the entry's message field in place with its
newline-stripped value, so a record sent in with message "hi\n" comes
back with message "hi". -/
theorem format_mutates_message_cex :
    (Format {} "linux" {} []
        { time := fun _ => "TS", level := .info, message := "hi\n", data := [],
          caller := none, logger := none, buffer := none }).map (fun r => r.2.1.message)
      = some "hi" ∧ ("hi" : String) ≠ "hi\n" :=
  ⟨by decide, by decide⟩

/-- C2 amended: the field mapping is snapshotted into an independent copy
and never written back; besides the output bytes and the formatter's
one-time cache, the only writes are the record's message field, which is
overwritten with its newline-stripped value, and the record's provided
output buffer, which receives the produced bytes; every other component
of the record is untouched. -/
theorem format_frame_amended (f : TextFormatter) (goos : String) (st : FmtState)
    (iterKeys : List String) (entry : Entry) (out : String) (e' : Entry) (st' : FmtState)
    (h : Format f goos st iterKeys entry = some (out, e', st')) :
    e'.message = trimNewlineSuffix entry.message ∧
    e'.data = entry.data ∧
    e'.level = entry.level ∧
    e'.time = entry.time ∧
    e'.caller = entry.caller ∧
    e'.logger = entry.logger ∧
    e'.buffer = entry.buffer.map (fun _ => out) ∧
    st' = (if st.initDone then st else initState st entry) := by
  obtain ⟨hst, he⟩ := format_post f goos st iterKeys entry out e' st' h
  subst he
  subst hst
  exact ⟨rfl, rfl, rfl, rfl, rfl, rfl, rfl, rfl⟩

theorem format_frame_amended_witness :
    (Format {} "linux" {} []
        { time := fun _ => "TS", level := .info, message := "hi\n", data := [],
          caller := none, logger := none, buffer := none }
      = some ("TS :: INFO :: hi" ++ (⟨List.replicate 42 ' '⟩ : String) ++ " \n",
          { time := fun _ => "TS", level := .info, message := "hi", data := [],
            caller := none, logger := none, buffer := none },
          { initDone := true, isTerminal := false, levelTextMaxLength := 7 })) ∧
    ({ time := fun _ => "TS", level := .info, message := "hi", data := [],
       caller := none, logger := none, buffer := none } : Entry).message
      = trimNewlineSuffix "hi\n" :=
  ⟨rfl,
    (format_frame_amended {} "linux" {} []
      { time := fun _ => "TS", level := .info, message := "hi\n", data := [],
        caller := none, logger := none, buffer := none }
      ("TS :: INFO :: hi" ++ (⟨List.replicate 42 ' '⟩ : String) ++ " \n")
      { time := fun _ => "TS", level := .info, message := "hi", data := [],
        caller := none, logger := none, buffer := none }
      { initDone := true, isTerminal := false, levelTextMaxLength := 7 } rfl).1⟩

/-- C10: when the entry presented at the first `Format` call carries no
logger, the terminal probe is skipped, the cached `isTerminal` stays
false, later calls never change the cached state again, colour can then
come only from `forceColors` (with `disableColors` unset), and the call
still succeeds. -/
theorem nil_logger_first_call (f : TextFormatter) (goos : String)
    (iterKeys : List String) (entry : Entry) (hlog : entry.logger = none) :
    (Format f goos {} iterKeys entry).isSome = true ∧
    ∀ out e' st', Format f goos {} iterKeys entry = some (out, e', st') →
      st'.isTerminal = false ∧ st'.initDone = true ∧
      isColored f st' goos = (f.ForceColors && !f.DisableColors) ∧
      ∀ iter₂ e₂ r₂, Format f goos st' iter₂ e₂ = some r₂ → r₂.2.2 = st' := by
  refine ⟨format_isSome f goos {} iterKeys entry, ?_⟩
  intro out e' st' h
  obtain ⟨hst, -⟩ := format_post f goos {} iterKeys entry out e' st' h
  have hstI : st' = initState {} entry := by simpa using hst
  subst hstI
  refine ⟨by simp [initState, hlog], rfl, ?_, ?_⟩
  · simp [isColored, initState, hlog]
  · intro iter₂ e₂ r₂ h₂
    obtain ⟨hs₂, -⟩ := format_post f goos _ iter₂ e₂ r₂.1 r₂.2.1 r₂.2.2
      (by rw [h₂])
    simpa [initState] using hs₂

theorem nil_logger_first_call_witness :
    ({ time := fun _ => "TS", level := .info, message := "", data := [],
       caller := none, logger := none, buffer := none } : Entry).logger = none ∧
    (Format {} "linux" {} []
        { time := fun _ => "TS", level := .info, message := "", data := [],
          caller := none, logger := none, buffer := none }).isSome = true :=
  ⟨rfl,
    (nil_logger_first_call {} "linux" []
      { time := fun _ => "TS", level := .info, message := "", data := [],
        caller := none, logger := none, buffer := none } rfl).1⟩

/-- C5 counterexample: with sorting disabled the keys are emitted in the
map-iteration order of `for k := range data`, which the Go language does
not tie to insertion order — for the record whose fields were inserted
"z" then "a", the iteration order a, z is a legal run, and it yields
` a=... z=...` rather than the insertion order `z ... a ...`. -/
theorem field_order_insertion_cex :
    (Format { DisableSorting := true } "linux" {} ["a", "z"]
        { time := fun _ => "TS", level := .info, message := "m",
          data := [("z", FieldValue.str "1"), ("a", FieldValue.str "2")],
          caller := none, logger := none, buffer := none }).map (fun r => r.1)
      = some ("TS :: INFO :: m" ++ (⟨List.replicate 43 ' '⟩ : String) ++ "  a=2 z=1\n") ∧
    ("TS :: INFO :: m" ++ (⟨List.replicate 43 ' '⟩ : String) ++ "  a=2 z=1\n")
      ≠ ("TS :: INFO :: m" ++ (⟨List.replicate 43 ' '⟩ : String) ++ "  z=1 a=2\n") :=
  ⟨by decide, by decide⟩

/-- C5 amended: with no custom sort function, the resolved key sequence
holds every field key exactly once; with sorting enabled it is exactly
the lexicographically sorted key list, and with sorting disabled it is
the map-iteration order — a permutation of the keys that need not be the
insertion order. -/
theorem field_order_amended (f : TextFormatter) (entry : Entry) (iterKeys : List String)
    (hsf : f.SortingFunc = none)
    (hperm : List.Perm iterKeys (entry.data.map Prod.fst))
    (hnd : (entry.data.map Prod.fst).Nodup) :
    (∀ k ∈ entry.data.map Prod.fst, (resolveKeys f iterKeys).count k = 1) ∧
    (f.DisableSorting = false →
      resolveKeys f iterKeys = List.insertionSort strLeR (entry.data.map Prod.fst)) ∧
    (f.DisableSorting = true → resolveKeys f iterKeys = iterKeys) := by
  haveI : IsTotal String strLeR := ⟨strLeR_total⟩
  haveI : IsTrans String strLeR := ⟨strLeR_trans⟩
  haveI : IsAntisymm String strLeR := ⟨strLeR_antisymm⟩
  refine ⟨?_, ?_, ?_⟩
  · intro k hk
    have hperm2 : List.Perm (resolveKeys f iterKeys) (entry.data.map Prod.fst) := by
      unfold resolveKeys
      cases hds : f.DisableSorting
      · simp only [hds, hsf, Bool.not_false, if_true]
        exact (List.perm_insertionSort strLeR iterKeys).trans hperm
      · simpa [hds] using hperm
    rw [hperm2.count_eq]
    exact List.count_eq_one_of_mem hnd hk
  · intro hds
    unfold resolveKeys
    simp only [hds, hsf, Bool.not_false, if_true]
    exact List.eq_of_perm_of_sorted
      ((List.perm_insertionSort strLeR iterKeys).trans
        (hperm.trans (List.perm_insertionSort strLeR _).symm))
      (List.sorted_insertionSort strLeR iterKeys)
      (List.sorted_insertionSort strLeR _)
  · intro hds
    simp [resolveKeys, hds]

theorem field_order_amended_witness :
    ({} : TextFormatter).SortingFunc = none ∧
    List.Perm ["a", "b"]
      (([("b", FieldValue.str "2"), ("a", FieldValue.str "1")]).map Prod.fst) ∧
    (([("b", FieldValue.str "2"), ("a", FieldValue.str "1")]).map Prod.fst).Nodup ∧
    resolveKeys {} ["a", "b"]
      = List.insertionSort strLeR
          (([("b", FieldValue.str "2"), ("a", FieldValue.str "1")]).map Prod.fst) :=
  ⟨rfl, by decide, by decide,
    (field_order_amended {}
      { time := fun _ => "TS", level := .info, message := "",
        data := [("b", FieldValue.str "2"), ("a", FieldValue.str "1")],
        caller := none, logger := none, buffer := none }
      ["a", "b"] rfl (by decide) (by decide)).2.1 rfl⟩

/-- C6 counterexample: the byte sequence the claim describes — "INFO ::
hello", exactly 39 spaces, then `a=1 ...` — is not what `Format` returns
for the scenario record: the 44-character pad leaves 39 spaces after
"hello", but the head template writes one further space and the first
field chunk starts with another, so 41 spaces separate "hello" from
"a=1". -/
theorem scenario_info_hello_cex :
    (Format { DisableTimestamp := true, DisableColors := true } "linux" {} ["a", "b"]
        { time := fun _ => "TS", level := .info, message := "hello",
          data := [("a", FieldValue.str "1"), ("b", FieldValue.str "needs space")],
          caller := none, logger := none, buffer := none }).map (fun r => r.1)
      ≠ some ("INFO :: hello" ++ (⟨List.replicate 39 ' '⟩ : String)
          ++ "a=1 b=\"needs space\"\n") := by
  decide

/-- C6 amended: for the scenario record (level Info, message "hello",
fields a=1 and b="needs space", timestamp and colours disabled, any
map-iteration order of the two keys) `Format` returns exactly
`INFO :: hello`, 39 pad spaces, the template's trailing space, then
` a=1 b="needs space"` (41 spaces in all between "hello" and "a=1") and
one trailing newline. -/
theorem scenario_info_hello_amended (iterKeys : List String)
    (hiter : iterKeys = ["a", "b"] ∨ iterKeys = ["b", "a"]) :
    (Format { DisableTimestamp := true, DisableColors := true } "linux" {} iterKeys
        { time := fun _ => "TS", level := .info, message := "hello",
          data := [("a", FieldValue.str "1"), ("b", FieldValue.str "needs space")],
          caller := none, logger := none, buffer := none }).map (fun r => r.1)
      = some ("INFO :: hello" ++ (⟨List.replicate 39 ' '⟩ : String)
          ++ "  a=1 b=\"needs space\"\n") := by
  rcases hiter with rfl | rfl <;> decide

theorem scenario_info_hello_amended_witness :
    ((["b", "a"] : List String) = ["a", "b"] ∨ (["b", "a"] : List String) = ["b", "a"]) ∧
    (Format { DisableTimestamp := true, DisableColors := true } "linux" {} ["b", "a"]
        { time := fun _ => "TS", level := .info, message := "hello",
          data := [("a", FieldValue.str "1"), ("b", FieldValue.str "needs space")],
          caller := none, logger := none, buffer := none }).map (fun r => r.1)
      = some ("INFO :: hello" ++ (⟨List.replicate 39 ' '⟩ : String)
          ++ "  a=1 b=\"needs space\"\n") :=
  ⟨Or.inr rfl, scenario_info_hello_amended ["b", "a"] (Or.inr rfl)⟩

theorem colorPrint_neg (s : String) : colorPrint s (-1) = s := by
  simp [colorPrint]

theorem levelToColor_pos (lv : Level) : levelToColor lv > 0 := by
  cases lv <;> decide

theorem hasEsc_colorPrint_pos (s : String) (c : Int) (h : c > 0) :
    hasEsc (colorPrint s c) = true := by
  rw [colorPrint, if_pos h]
  have h1 : hasEsc "\x1b[" = true := by decide
  simp [hasEsc_append, h1]

theorem renderedLevelText_noEsc (f : TextFormatter) (maxLen : Nat) (lv : Level) (lt : String)
    (h : renderedLevelText f maxLen lv = some lt) : noEsc lt := by
  have base : noEsc (goToUpper lv.str) := by cases lv <;> decide
  unfold renderedLevelText at h
  rcases Option.map_eq_some'.1 h with ⟨lt1, h1, h2⟩
  subst h2
  have hlt1 : noEsc lt1 := by
    split at h1
    · split at h1
      · rw [← Option.some.inj h1]
        rw [noEsc_iff] at base ⊢
        intro hm
        exact base ((List.take_subset 4 _) hm)
      · exact absurd h1 (by simp)
    · rw [← Option.some.inj h1]
      exact base
  split
  · exact noEsc_padRight _ hlt1
  · exact hlt1

theorem fieldsSection_cons (f : TextFormatter) (c : Int) (data : List (String × FieldValue))
    (k : String) (keys : List String) :
    fieldsSection f c data (k :: keys)
      = (" " ++ colorPrint k c ++ "=" ++ appendValue f (lookupField data k))
        ++ fieldsSection f c data keys := rfl

theorem fieldsSection_noEsc (f : TextFormatter) (data : List (String × FieldValue)) :
    ∀ keys : List String,
    (∀ k ∈ keys, noEsc k ∧ noEsc (lookupField data k).text) →
    noEsc (fieldsSection f (-1) data keys)
  | [], _ => rfl
  | k :: keys, h => by
    have hk := h k (List.mem_cons_self k keys)
    have hrest := fieldsSection_noEsc f data keys fun x hx => h x (List.mem_cons_of_mem k hx)
    rw [fieldsSection_cons, colorPrint_neg]
    exact noEsc_append
      (noEsc_append (noEsc_append (by decide) hk.1) (by decide))
      (noEsc_appendValue f _ hk.2) |> fun hchunk => noEsc_append hchunk hrest

/-- C4: ANSI escape bytes appear in the output exactly when
(`forceColors` OR (the cached terminal bit AND the platform is not
windows)) AND NOT `disableColors` — given a record whose own texts are
ESC-free; in particular `disableColors` = true yields no escape bytes
regardless of `forceColors` or terminal status, and `forceColors` = true
with `disableColors` = false yields escape bytes regardless of terminal
status. -/
theorem ansi_iff_colored (f : TextFormatter) (goos : String) (st : FmtState)
    (iterKeys : List String) (entry : Entry) (out : String) (e' : Entry) (st' : FmtState)
    (h : Format f goos st iterKeys entry = some (out, e', st'))
    (hts : noEsc (entry.time (effTimestampFormat f)))
    (hmsg : noEsc entry.message)
    (hcal : noEsc (callerText f entry))
    (hkeys : ∀ k ∈ resolveKeys f iterKeys,
      noEsc k ∧ noEsc (lookupField entry.data k).text)
    (hbuf : ∀ b, entry.buffer = some b → noEsc b) :
    hasEsc out
      = ((f.ForceColors || (st'.isTerminal && !(goos == "windows"))) && !f.DisableColors) := by
  simp only [Format, assemble] at h
  rcases Option.map_eq_some'.1 h with ⟨p, hp, heq⟩
  rcases Option.map_eq_some'.1 hp with ⟨lt, hlt, hg⟩
  subst hg
  simp only [Prod.mk.injEq] at heq
  obtain ⟨h1, h2, h3⟩ := heq
  subst h1
  subst h3
  have hpre : hasEsc (match entry.buffer with | some b => b | none => "") = false := by
    cases hb : entry.buffer
    · decide
    · exact hbuf _ hb
  have hlt' : hasEsc lt = false := renderedLevelText_noEsc f _ entry.level lt hlt
  have hcal' : hasEsc (callerText f entry) = false := hcal
  have hpad : hasEsc (padRight (trimNewlineSuffix entry.message) 44) = false :=
    noEsc_padRight 44 (noEsc_trimNewlineSuffix hmsg)
  have hts' : hasEsc (entry.time (effTimestampFormat f)) = false := hts
  have hfields : hasEsc (fieldsSection f (-1) entry.data (resolveKeys f iterKeys)) = false :=
    fieldsSection_noEsc f entry.data (resolveKeys f iterKeys) hkeys
  show hasEsc _ = isColored f (if st.initDone then st else initState st entry) goos
  cases hc : isColored f (if st.initDone then st else initState st entry) goos
  · cases hdt : f.DisableTimestamp <;>
      simp [hc, hdt, hasEsc_append, colorPrint_neg, hpre, hlt', hcal', hpad, hts', hfields,
        noEsc_append, show hasEsc " :: " = false from by decide,
        show hasEsc " " = false from by decide,
        show hasEsc "\n" = false from by decide]
  · have hcp := hasEsc_colorPrint_pos (lt ++ callerText f entry) (levelToColor entry.level)
      (levelToColor_pos entry.level)
    cases hdt : f.DisableTimestamp <;>
      simp [hc, hdt, hasEsc_append, hcp]

theorem ansi_iff_colored_witness :
    noEsc ("TS" : String) ∧
    hasEsc ("\x1b[2mTS\x1b[0m \x1b[36mINFO\x1b[0m m"
        ++ (⟨List.replicate 43 ' '⟩ : String) ++ " \n") = true :=
  ⟨by decide,
    (ansi_iff_colored { ForceColors := true } "linux" {} []
      { time := fun _ => "TS", level := .info, message := "m", data := [],
        caller := none, logger := none, buffer := none }
      ("\x1b[2mTS\x1b[0m \x1b[36mINFO\x1b[0m m"
        ++ (⟨List.replicate 43 ' '⟩ : String) ++ " \n")
      { time := fun _ => "TS", level := .info, message := "m", data := [],
        caller := none, logger := none, buffer := none }
      { initDone := true, isTerminal := false, levelTextMaxLength := 7 }
      rfl (by decide) (by decide) (by decide)
      (by simp [resolveKeys])
      (fun b hb => nomatch hb)).trans (by decide)⟩

/-! ## Strip composition lemmas -/

theorem stripsTo_plain (s : String) (h : noEsc s) : StripsTo s s :=
  fun t => strip_plainStr s t h

theorem stripsTo_color (s : String) (c : Int) (hpos : c > 0)
    (hm : 'm' ∉ (toString c).data) (hs : noEsc s) : StripsTo (colorPrint s c) s :=
  fun t => strip_colorPrint s c t hpos hm (noEsc_iff.1 hs)

theorem StripsTo.comp {a b c d : String} (h1 : StripsTo a b) (h2 : StripsTo c d) :
    StripsTo (a ++ c) (b ++ d) := by
  intro t
  rw [String.data_append, List.append_assoc, h1, h2, String.data_append, List.append_assoc]

theorem StripsTo.out {a b : String} (h : StripsTo a b) : stripAnsi a = b := by
  apply string_ext
  have h0 := h []
  rw [List.append_nil] at h0
  show stripAnsiChars false a.data = b.data
  rw [h0, show stripAnsiChars false [] = ([] : List Char) from rfl, List.append_nil]

theorem levelToColor_m (lv : Level) : 'm' ∉ (toString (levelToColor lv)).data := by
  cases lv <;> decide

theorem stripsTo_fields (f : TextFormatter) (c : Int)
    (data : List (String × FieldValue)) (hpos : c > 0) (hm : 'm' ∉ (toString c).data) :
    ∀ keys : List String,
    (∀ k ∈ keys, noEsc k ∧ noEsc (lookupField data k).text) →
    StripsTo (fieldsSection f c data keys) (fieldsSection f (-1) data keys)
  | [], _ => fun t => rfl
  | k :: keys, h => by
    have hk := h k (List.mem_cons_self k keys)
    have hrest := stripsTo_fields f c data hpos hm keys
      fun x hx => h x (List.mem_cons_of_mem k hx)
    rw [fieldsSection_cons, fieldsSection_cons, colorPrint_neg]
    exact ((((stripsTo_plain " " (by decide)).comp
        (stripsTo_color k c hpos hm hk.1)).comp
        (stripsTo_plain "=" (by decide))).comp
        (stripsTo_plain (appendValue f (lookupField data k))
          (noEsc_appendValue f _ hk.2))).comp hrest

/-- C1 counterexample: for the same record and configuration apart from
colorization, stripping the ANSI escape sequences from the colorized run
does not reproduce the uncolorized run: the colorized line separates its
sections with a single space while the uncolorized line uses " :: ". -/
theorem strip_roundtrip_cex :
    (Format { DisableTimestamp := true, ForceColors := true } "linux" {} []
        { time := fun _ => "TS", level := .info, message := "", data := [],
          caller := none, logger := none, buffer := none }).map (fun r => stripAnsi r.1)
      ≠ (Format { DisableTimestamp := true, ForceColors := true, DisableColors := true }
          "linux" {} []
          { time := fun _ => "TS", level := .info, message := "", data := [],
            caller := none, logger := none, buffer := none }).map (fun r => r.1) := by
  decide

/-- C1 amended: for every record and configuration whose texts are
ESC-free, stripping the ANSI escape sequences from the colorized run
yields the uncolorized line with every " :: " separator replaced by a
single space: the stripped colorized output equals the line assembly run
with no colours and separator " ", while the run with colours disabled
(all else identical) is the same line assembly with separator " :: ". -/
theorem strip_roundtrip_amended (f : TextFormatter) (goos : String) (st : FmtState)
    (iterKeys : List String) (entry : Entry)
    (hcol : isColored f (if st.initDone then st else initState st entry) goos = true)
    (hts : noEsc (entry.time (effTimestampFormat f)))
    (hmsg : noEsc entry.message)
    (hcal : noEsc (callerText f entry))
    (hkeys : ∀ k ∈ resolveKeys f iterKeys,
      noEsc k ∧ noEsc (lookupField entry.data k).text)
    (hbuf : ∀ b, entry.buffer = some b → noEsc b) :
    (Format f goos st iterKeys entry).map (fun r => stripAnsi r.1)
      = (assemble f (if st.initDone then st else initState st entry).levelTextMaxLength
          " " (-1) (entry.time (effTimestampFormat f)) entry.data entry
          (resolveKeys f iterKeys)).map
          (fun p => (match entry.buffer with | some b => b | none => "") ++ p.1) ∧
    Format { f with DisableColors := true } goos st iterKeys entry
      = (assemble f (if st.initDone then st else initState st entry).levelTextMaxLength
          " :: " (-1) (entry.time (effTimestampFormat f)) entry.data entry
          (resolveKeys f iterKeys)).map
          (fun p =>
            ((match entry.buffer with | some b => b | none => "") ++ p.1,
             { p.2 with buffer := entry.buffer.map fun _ =>
                 (match entry.buffer with | some b => b | none => "") ++ p.1 },
             if st.initDone then st else initState st entry)) := by
  have hpre : noEsc (match entry.buffer with | some b => b | none => "") := by
    cases hb : entry.buffer
    · decide
    · exact hbuf _ hb
  constructor
  · rcases hrlt : renderedLevelText f
        (if st.initDone then st else initState st entry).levelTextMaxLength entry.level
      with _ | lt
    · simp [Format, assemble, hrlt]
    · have hlt : noEsc lt := renderedLevelText_noEsc f _ entry.level lt hrlt
      have hfST := stripsTo_fields f (levelToColor entry.level) entry.data
        (levelToColor_pos entry.level) (levelToColor_m entry.level)
        (resolveKeys f iterKeys) hkeys
      have hcsST : StripsTo (colorPrint (lt ++ callerText f entry) (levelToColor entry.level))
          (lt ++ callerText f entry) :=
        stripsTo_color _ _ (levelToColor_pos entry.level) (levelToColor_m entry.level)
          (noEsc_append hlt hcal)
      have htsST : StripsTo (colorPrint (entry.time (effTimestampFormat f)) faint)
          (entry.time (effTimestampFormat f)) :=
        stripsTo_color _ _ (by decide) (by decide) hts
      have hpadST : StripsTo (padRight (trimNewlineSuffix entry.message) 44)
          (padRight (trimNewlineSuffix entry.message) 44) :=
        stripsTo_plain _ (noEsc_padRight 44 (noEsc_trimNewlineSuffix hmsg))
      have hspST : StripsTo " " " " := stripsTo_plain _ (by decide)
      have hnlST : StripsTo "\n" "\n" := stripsTo_plain _ (by decide)
      have hpreST : StripsTo (match entry.buffer with | some b => b | none => "")
          (match entry.buffer with | some b => b | none => "") := stripsTo_plain _ hpre
      simp only [Format, assemble, hcol, hrlt, Option.map_some', eq_self_iff_true, if_true]
      rw [colorPrint_neg]
      cases hdt : f.DisableTimestamp
      · simp only [hdt, Bool.false_eq_true, if_false]
        exact congrArg some
          ((hpreST.comp (((((((htsST.comp hspST).comp hcsST).comp hspST).comp
            hpadST).comp hspST).comp hfST).comp hnlST)).out)
      · simp only [hdt, if_true]
        exact congrArg some
          ((hpreST.comp ((((((hcsST.comp hspST).comp hpadST).comp hspST).comp
            hfST).comp hnlST))).out)
  · have hcol2 : isColored { f with DisableColors := true }
        (if st.initDone then st else initState st entry) goos = false := by
      simp [isColored]
    simp only [Format, hcol2, Bool.false_eq_true, if_false]
    rfl

theorem strip_roundtrip_amended_witness :
    isColored { ForceColors := true }
      (if ({} : FmtState).initDone then ({} : FmtState)
       else initState {}
        { time := fun _ => "TS", level := .info, message := "m", data := [],
          caller := none, logger := none, buffer := none }) "linux" = true ∧
    (Format { ForceColors := true } "linux" {} []
        { time := fun _ => "TS", level := .info, message := "m", data := [],
          caller := none, logger := none, buffer := none }).map (fun r => stripAnsi r.1)
      = some ("TS INFO m" ++ (⟨List.replicate 43 ' '⟩ : String) ++ " \n") :=
  ⟨by decide,
    ((strip_roundtrip_amended { ForceColors := true } "linux" {} []
      { time := fun _ => "TS", level := .info, message := "m", data := [],
        caller := none, logger := none, buffer := none }
      (by decide) (by decide) (by decide) (by decide)
      (by simp [resolveKeys])
      (fun b hb => nomatch hb)).1).trans (by decide)⟩
